import Mathlib

/-!
# Verification of the CloudWatch data-source connector samples

Shallow embedding of the four metric connectors (moving average, time shift,
multi-region fetch, threshold filter, histogram quantizer) and proofs of the
spec's testable properties about them.

Conventions of the embedding:
* epoch-second timestamps are `ℤ`; metric values are `ℚ` (the connectors only
  add, subtract, divide and compare sample values);
* the logarithmic histogram binning is embedded over `ℝ` with `Real.log` /
  `Real.exp`, the mathematical functions the JavaScript `Math.log` / `Math.exp`
  approximate;
* a JavaScript object used as a timestamp → value map is embedded as a lookup
  over the parallel arrays (the latest write wins, like property assignment);
* the network call to CloudWatch is an external collaborator: raw series are
  parameters of the handler embeddings;
* a `for` loop whose iteration count is not obvious from its bounds is given
  explicit fuel, and returns `none` when the fuel is exhausted while the loop
  guard still holds.
-/

namespace CWSamples

/-! ## Time grids

`for (let time = start; time < stop; time += step)` visits
`start, start + step, ...` while below `stop`.  For a positive step the number
of iterations is `⌈(stop - start) / step⌉` (and `0` when that is negative). -/

/-- Number of iterations of `for (t = start; t < stop; t += step)`, `0 < step`. -/
def gridSize (start stop step : ℤ) : ℕ :=
  ((stop - start + step - 1) / step).toNat

/-- The timestamps visited by `for (t = start; t < stop; t += step)`. -/
def gridTimes (start stop step : ℤ) : List ℤ :=
  (List.range (gridSize start stop step)).map (fun i : ℕ => start + (i : ℤ) * step)

/-! ## Shared data model -/

/-- A returned series: a label, parallel timestamp/value arrays.
(The constant `StatusCode`/`Status` fields reported by the connectors are
omitted.) -/
structure OutSeries where
  Label : String
  Timestamps : List ℤ
  Values : List ℚ
deriving DecidableEq, Repr

/-- The JavaScript pattern

```js
const map = {};
tss.forEach((ts, index) => { map[ts] = vs[index]; });
```

as a lookup function: the value at the last index whose timestamp matches wins,
indices beyond `vs.length` store `undefined` (here: are absent). -/
def buildTimestampMap (tss : List ℤ) (vs : List ℚ) : ℤ → Option ℚ :=
  fun t => (((tss.zip vs).reverse.find? (fun p => p.1 == t)).map Prod.snd)

/-! ## Moving-average connector (README `metricDataToMovingAverage`) -/

/-- The mutable state of the moving-average loop: the sliding window of the
last slots (`none` marks a gap), the running sample count and sum, and the two
output arrays. The count is `ℤ` because the JavaScript counter is decremented
without a guard. -/
structure MAState where
  window : List (Option ℚ)
  count : ℤ
  total : ℚ
  outT : List ℤ
  outV : List ℚ
deriving Repr

def maInit : MAState := ⟨[], 0, 0, [], []⟩

/-- One iteration of the `metricDataToMovingAverage` loop body:
push the slot's value, add it to the accumulators when present, evict the
oldest slot once `time > StartTime`, and emit `sampleTotal / sampleCount` once
`time >= StartTime` and the window holds at least one sample. -/
def maStep (tsMap : ℤ → Option ℚ) (StartTime : ℤ) (st : MAState) (time : ℤ) :
    MAState :=
  let value := tsMap time
  let window := st.window ++ [value]
  let count := match value with
    | some _ => st.count + 1
    | none => st.count
  let total := match value with
    | some v => st.total + v
    | none => st.total
  let st2 : MAState :=
    if StartTime < time then
      match window with
      | [] => ⟨window, count, total, st.outT, st.outV⟩
      | firstWindowValue :: rest =>
        match firstWindowValue with
        | some v => ⟨rest, count - 1, total - v, st.outT, st.outV⟩
        | none => ⟨rest, count, total, st.outT, st.outV⟩
    else ⟨window, count, total, st.outT, st.outV⟩
  if StartTime ≤ time then
    if 0 < st2.count then
      { st2 with
        outT := st2.outT ++ [time]
        outV := st2.outV ++ [st2.total / (st2.count : ℚ)] }
    else st2
  else st2

/-- `metricDataToMovingAverage` (README): walk the grid from
`revisedStartTime` to `EndTime`, folding the loop body.  The raw series is
given by its parallel arrays, turned into the timestamp map exactly as in the
source. -/
def metricDataToMovingAverage (tss : List ℤ) (vs : List ℚ)
    (revisedStartTime StartTime EndTime Period : ℤ) : MAState :=
  (gridTimes revisedStartTime EndTime Period).foldl
    (maStep (buildTimestampMap tss vs) StartTime) maInit

/-- The trailing `N`-slot window ending at `t` (slots `t, t - P, ...,
t - (N-1)·P`, newest first), as the spec describes it. -/
def windowSlots (tsMap : ℤ → Option ℚ) (P : ℤ) (N : ℕ) (t : ℤ) :
    List (Option ℚ) :=
  (List.range N).map (fun j : ℕ => tsMap (t - (j : ℤ) * P))

/-- Number of present samples in the trailing `N`-slot window ending at `t`. -/
def windowCount (tsMap : ℤ → Option ℚ) (P : ℤ) (N : ℕ) (t : ℤ) : ℕ :=
  ((windowSlots tsMap P N t).filterMap id).length

/-- Sum of the present samples in the trailing `N`-slot window ending at `t`. -/
def windowSum (tsMap : ℤ → Option ℚ) (P : ℤ) (N : ℕ) (t : ℤ) : ℚ :=
  ((windowSlots tsMap P N t).filterMap id).sum

/-! ## Time-shift connector (`timeshift/index.js`) -/

/-- `shiftFullMetricData`: build the timestamp → value map of the raw series,
then for every shift index `0 ≤ i ≤ numberOfShifts` walk the forward grid and
emit `(time, value-at (time - i·shiftInterval))` whenever that instant has a
recorded value.  (The `Label`/`Status` presentation fields are omitted; the
label argument of the series is the shift index rendering.) -/
def shiftFullMetricData (fullTs : List ℤ) (fullVs : List ℚ)
    (StartTime EndTime Period shiftInterval : ℤ) (numberOfShifts : ℕ) :
    List OutSeries :=
  let fullMetricDataMap := buildTimestampMap fullTs fullVs
  (List.range (numberOfShifts + 1)).map (fun i : ℕ =>
    let timeOffset : ℤ := (i : ℤ) * shiftInterval
    let pts := (gridTimes StartTime EndTime Period).filterMap
      (fun time => (fullMetricDataMap (time - timeOffset)).map
        (fun v => (time, v)))
    { Label := if i = 0 then "current" else "shifted"
      Timestamps := pts.map Prod.fst
      Values := pts.map Prod.snd })

/-- The time-shift `getMetricDataEventHandler` after validation: it rounds the
query start down to a period boundary and shifts the fetched raw series.  The
CloudWatch fetch (from `roundedStart - shiftInterval * numberOfShifts`) is the
external collaborator; the raw series it returned is a parameter. -/
def timeshiftGetMetricDataEventHandler (fullTs : List ℤ) (fullVs : List ℚ)
    (StartTime EndTime Period shiftInterval : ℤ) (numberOfShifts : ℕ) :
    List OutSeries :=
  let roundedStart := StartTime - StartTime % Period
  shiftFullMetricData fullTs fullVs roundedStart EndTime Period shiftInterval
    numberOfShifts

/-! ## Time-shift duration parsing (`parseISO8601DurationString`)

The source matches
`/^P(?:(\d+)D)?[T]*(?:(\d+)H)?(?:(\d+)M)?(?:(\d+(?:\.\d{1,3})?)S)?$/` and
applies `parseInt(, 10)` to each captured group.  Each optional group is a
maximal digit run followed by its marker letter, so regex backtracking can
never succeed where the greedy committed parse below fails (a shorter digit or
fraction run is always followed by another digit, never by the marker), and the
two are equivalent.  `parseInt` of a `digits.digits` capture keeps only the
integer part. -/

/-- Numeric value of a digit run (what `parseInt` returns on it). -/
def digitsVal (ds : List Char) : ℕ :=
  ds.foldl (fun acc c => acc * 10 + (c.toNat - '0'.toNat)) 0

/-- Match an optional `(\d+)X` group: on success return its value and the
remaining input, otherwise leave the input untouched and yield 0 (an absent
group). -/
def durationGroup (letter : Char) (s : List Char) : ℕ × List Char :=
  let ds := s.takeWhile Char.isDigit
  let rest := s.dropWhile Char.isDigit
  if ds = [] then (0, s)
  else
    match rest with
    | c :: rest2 => if c = letter then (digitsVal ds, rest2) else (0, s)
    | [] => (0, s)

/-- Match the optional `(\d+(\.\d{1,3})?)S` group; `parseInt` on the capture
discards the fractional digits. -/
def durationSecondsGroup (s : List Char) : ℕ × List Char :=
  let ds := s.takeWhile Char.isDigit
  let rest := s.dropWhile Char.isDigit
  if ds = [] then (0, s)
  else
    match rest with
    | '.' :: rest2 =>
      let fs := rest2.takeWhile Char.isDigit
      let rest3 := rest2.dropWhile Char.isDigit
      if 1 ≤ fs.length ∧ fs.length ≤ 3 then
        match rest3 with
        | 'S' :: rest4 => (digitsVal ds, rest4)
        | _ => (0, s)
      else (0, s)
    | 'S' :: rest2 => (digitsVal ds, rest2)
    | _ => (0, s)

/-- `parseISO8601DurationString`: `none` models the thrown
`Unrecognized ISO duration` validation error. -/
def parseISO8601DurationString (s : List Char) : Option ℕ :=
  match s with
  | 'P' :: s1 =>
    let (days, s2) := durationGroup 'D' s1
    let s3 := s2.dropWhile (fun c => c = 'T')
    let (hours, s4) := durationGroup 'H' s3
    let (mins, s5) := durationGroup 'M' s4
    let (secs, s6) := durationSecondsGroup s5
    if s6 = [] then some (((days * 24 + hours) * 60 + mins) * 60 + secs)
    else none
  | _ => none

/-- The shift-interval part of `validateGetMetricDataRequest`: parse the
duration string and reject a result `≤ 0` seconds. -/
def validateShiftInterval (s : List Char) : Option ℕ :=
  match parseISO8601DurationString s with
  | none => none
  | some shiftInterval => if shiftInterval ≤ 0 then none else some shiftInterval

/-! ## Multi-region connector (second half of `timeshift/index.js` sources) -/

/-- A thrown error: message plus the optional `cause` option (`'Validation'`
for the connector's own validation errors, absent on CloudWatch SDK
failures). -/
structure CWError where
  msg : String
  cause : Option String
deriving DecidableEq, Repr

/-- One regional `getMetricData` result (`MetricDataResults[0]`). -/
structure RawMetric where
  Id : String
  Timestamps : List ℤ
  Values : List ℚ
deriving DecidableEq, Repr

/-- The Lambda response: either a `MetricDataResults` list or the
`{ Error: { Code, Value } }` failure shape produced by the outermost catch. -/
inductive LambdaResponse where
  | results (series : List OutSeries)
  | failure (Code : String) (Value : String)
deriving DecidableEq, Repr

/-- `Promise.all`: succeeds with every value when every promise succeeds, and
rejects with a rejection reason as soon as any promise rejects (here: the first
in request order; the claim only depends on which side is taken). -/
def promiseAll {ε α : Type} : List (Except ε α) → Except ε (List α)
  | [] => .ok []
  | x :: xs =>
    match x with
    | .error e => .error e
    | .ok a =>
      match promiseAll xs with
      | .error e => .error e
      | .ok rest => .ok (a :: rest)

/-- Collation of one regional result: label it with the region (the request
`Id` with `_` restored to `-`) and mark it complete. -/
def collateRegionalResult (m : RawMetric) : OutSeries :=
  { Label := m.Id.replace "_" "-"
    Timestamps := m.Timestamps
    Values := m.Values }

/-- The multi-region `getMetricDataEventHandler` after validation: one
independent fetch per region joined by `Promise.all`, then collation.  The
regional fetch is the external collaborator, a function from region to its
outcome. -/
def multiRegionGetMetricData (fetch : String → Except CWError RawMetric)
    (regionList : List String) : Except CWError (List OutSeries) :=
  match promiseAll (regionList.map fetch) with
  | .error e => .error e
  | .ok results => .ok (results.map collateRegionalResult)

/-- The exported `handler` around the compute path: any thrown error becomes a
single failure response whose code is the error's `cause` or
`'InternalError'`. -/
def multiRegionHandler (fetch : String → Except CWError RawMetric)
    (regionList : List String) : LambdaResponse :=
  match multiRegionGetMetricData fetch regionList with
  | .ok series => .results series
  | .error e => .failure (e.cause.getD "InternalError") e.msg

/-! ## Threshold filter connector (`filter/index.js`) -/

inductive FilterStat where
  | MIN | MAX | AVG | SUM
deriving DecidableEq, Repr

inductive FilterCondition where
  | gt | ge | lt | le | eq | ne
deriving DecidableEq, Repr

/-- A parsed filter: `parseFilter` returns `{ stat: null }` for the empty
string (the always-true filter) and a `stat`/`condition`/`value` triple
otherwise. -/
inductive MetricFilter where
  | empty
  | pred (stat : FilterStat) (condition : FilterCondition) (value : ℚ)
deriving DecidableEq, Repr

/-- The loop body of `statMatchesFilter`'s single pass over
`values.slice(1)`: add to the sum, lower the min or raise the max. -/
def filterStatStep (acc : ℚ × ℚ × ℚ) (value : ℚ) : ℚ × ℚ × ℚ :=
  let mn := acc.1
  let mx := acc.2.1
  let sm := acc.2.2 + value
  if value < mn then (value, mx, sm)
  else if value > mx then (mn, value, sm)
  else (mn, mx, sm)

/-- The single linear pass of `statMatchesFilter`: starting from
`min = max = sum = values[0]`, fold the remaining values. -/
def filterStatPass (v0 : ℚ) (rest : List ℚ) : ℚ × ℚ × ℚ :=
  rest.foldl filterStatStep (v0, v0, v0)

/-- The comparison switch of `statMatchesFilter`. -/
def applyCondition (condition : FilterCondition) (stat value : ℚ) : Bool :=
  match condition with
  | .gt => decide (stat > value)
  | .ge => decide (stat ≥ value)
  | .lt => decide (stat < value)
  | .le => decide (stat ≤ value)
  | .eq => stat == value
  | .ne => stat != value

/-- The comparison of the filter predicate as a proposition (the reference
reading of `<stat> <condition> <value>`). -/
def conditionHolds (condition : FilterCondition) (stat value : ℚ) : Prop :=
  match condition with
  | .gt => stat > value
  | .ge => stat ≥ value
  | .lt => stat < value
  | .le => stat ≤ value
  | .eq => stat = value
  | .ne => stat ≠ value

/-- `statMatchesFilter`: the empty filter always matches; a non-empty filter
never matches a series without data; otherwise compare the chosen statistic of
the single pass with the filter value. -/
def statMatchesFilter (values : List ℚ) (filter : MetricFilter) : Bool :=
  match filter with
  | .empty => true
  | .pred stat condition value =>
    match values with
    | [] => false
    | v0 :: rest =>
      let stats := filterStatPass v0 rest
      let avg := stats.2.2 / (((v0 :: rest).length : ℕ) : ℚ)
      let chosen :=
        match stat with
        | .MIN => stats.1
        | .MAX => stats.2.1
        | .AVG => avg
        | .SUM => stats.2.2
      applyCondition condition chosen value

/-- The filtering step of the filter connector's `getMetricDataEventHandler`:
keep exactly the series whose values match the filter.  (The kept series also
get their timestamps converted from `Date` to epoch seconds; timestamps are
already epoch seconds here.) -/
def filterGetMetricData (filter : MetricFilter) (metrics : List OutSeries) :
    List OutSeries :=
  metrics.filter (fun metric => statMatchesFilter metric.Values filter)

/-! ## Histogram quantizer (histogram connector source)

The binning constants and functions, embedded over `ℝ`:
`Math.log`/`Math.exp`/`Math.floor` become `Real.log`/`Real.exp`/`Int.floor`.
`Math.round` on the fractional bin cursor is `round` (both are
`⌊x + 1/2⌋`). -/

def ZERO_VALUE : ℝ := 0

def EPSILON : ℝ := 0.1

noncomputable def BIN_SIZE : ℝ := Real.log (1 + EPSILON)

def MAX_BIN_RANGE : ℤ := 7000

def MIN_BIN_RANGE : ℤ := -MAX_BIN_RANGE

def ZERO_VALUE_BIN : ℤ := MIN_BIN_RANGE - 1

def NEGATIVE_ONE_BIN_OFFSET : ℤ := -2 * MAX_BIN_RANGE - 2

def SMALLEST_BIN : ℤ := NEGATIVE_ONE_BIN_OFFSET + MAX_BIN_RANGE

def MIN_VALUE_FOR_HIST : ℝ := 0.0001

/-- `constrainBinToAllowedRange`: saturate a bin index at `±MAX_BIN_RANGE`. -/
def constrainBinToAllowedRange (binNumber : ℤ) : ℤ :=
  if binNumber > MAX_BIN_RANGE then MAX_BIN_RANGE
  else if binNumber < MIN_BIN_RANGE then MIN_BIN_RANGE
  else binNumber

/-- `getBinNumber`: `0` goes to the sentinel bin, a nonzero value to
`⌊log |v| / BIN_SIZE⌋` clamped, mirrored below `NEGATIVE_ONE_BIN_OFFSET` for
negative values. -/
noncomputable def getBinNumber (value : ℝ) : ℤ :=
  if value = ZERO_VALUE then ZERO_VALUE_BIN
  else
    let binNumber := constrainBinToAllowedRange ⌊Real.log |value| / BIN_SIZE⌋
    if value > ZERO_VALUE then binNumber else NEGATIVE_ONE_BIN_OFFSET - binNumber

/-- `getValueWithinBin`: inverse mapping from a bin index back to a value at
`offset` within the bin. -/
noncomputable def getValueWithinBin (binNum : ℤ) (offset : ℝ) : ℝ :=
  if binNum = ZERO_VALUE_BIN then ZERO_VALUE
  else
    let mirrored := binNum ≤ SMALLEST_BIN
    let binNumber := if mirrored then NEGATIVE_ONE_BIN_OFFSET - binNum else binNum
    let sign : ℝ := if mirrored then -1 else 1
    sign * Real.exp (((constrainBinToAllowedRange binNumber : ℤ) + offset) * BIN_SIZE)

/-- `getBinTop`: upper edge of a bin. -/
noncomputable def getBinTop (binNumber : ℤ) : ℝ :=
  getValueWithinBin (binNumber + 1) 0

/-- One percentile-range bucket definition pushed by
`getHistogramMetricDefinitions`: its rounded bin index (the query `Id`), the
`PR(bottom:top)` range, and the midpoint from which `getLabelForValue` renders
the label (the string formatting itself is not modelled). -/
structure BucketDef where
  bin : ℤ
  bottom : ℝ
  top : ℝ
  labelValue : ℝ

/-- The loop `for (let bin = minBucketNum; bin <= maxBucketNum; bin += incBucket)`
of `getHistogramMetricDefinitions`, with fuel: `none` means the fuel ran out
while the loop guard still held.  The cursor `bin` lives in `ℚ` because
`incBucket` is the fractional `numBuckets / bucketCount`. -/
noncomputable def histogramBucketLoop (maxBucketNum : ℤ) (incBucket : ℚ) :
    ℕ → ℚ → ℝ → Option (List BucketDef)
  | 0, bin, _ =>
    if bin ≤ (maxBucketNum : ℚ) then none else some []
  | fuel + 1, bin, currentBucketBottom =>
    if bin ≤ (maxBucketNum : ℚ) then
      let binRound : ℤ := round bin
      let top := getBinTop binRound
      let middle := (top + currentBucketBottom) / 2
      (histogramBucketLoop maxBucketNum incBucket fuel (bin + incBucket) top).map
        (fun rest => ⟨binRound, currentBucketBottom, top, middle⟩ :: rest)
    else some []

/-- `getHistogramMetricDefinitions` (the `metric`/`rangePeriod` arguments only
decorate the emitted queries and are omitted): raise `min` to the
`MIN_VALUE_FOR_HIST` floor for binning, divide the bin span by `bucketCount`
and walk the loop. -/
noncomputable def getHistogramMetricDefinitions (min max : ℝ) (bucketCount : ℕ)
    (fuel : ℕ) : Option (List BucketDef) :=
  let useZeroBucketForMin := min < MIN_VALUE_FOR_HIST
  let minBucketNum :=
    if useZeroBucketForMin then getBinNumber MIN_VALUE_FOR_HIST
    else getBinNumber min
  let maxBucketNum := getBinNumber max
  let numBuckets : ℤ := maxBucketNum - minBucketNum
  let incBucket : ℚ := (numBuckets : ℚ) / (bucketCount : ℚ)
  histogramBucketLoop maxBucketNum incBucket fuel ((minBucketNum : ℤ) : ℚ) min

/-! ## Grid lemmas -/

theorem lt_gridSize_iff {s e P : ℤ} (hP : 0 < P) (i : ℕ) :
    i < gridSize s e P ↔ s + (i : ℤ) * P < e := by
  unfold gridSize
  rw [Int.lt_toNat]
  constructor
  · intro h
    have h1 : (i : ℤ) + 1 ≤ (e - s + P - 1) / P := Int.lt_iff_add_one_le.mp h
    have h2 := (Int.le_ediv_iff_mul_le hP).mp h1
    have h3 : ((i : ℤ) + 1) * P = (i : ℤ) * P + P := by ring
    linarith
  · intro h
    have h3 : ((i : ℤ) + 1) * P = (i : ℤ) * P + P := by ring
    have h2 : ((i : ℤ) + 1) * P ≤ e - s + P - 1 := by linarith
    exact Int.lt_iff_add_one_le.mpr ((Int.le_ediv_iff_mul_le hP).mpr h2)

theorem mem_gridTimes_iff {s e P : ℤ} {t : ℤ} :
    t ∈ gridTimes s e P ↔ ∃ i : ℕ, i < gridSize s e P ∧ t = s + (i : ℤ) * P := by
  unfold gridTimes
  rw [List.mem_map]
  constructor
  · rintro ⟨i, hi, rfl⟩
    exact ⟨i, List.mem_range.mp hi, rfl⟩
  · rintro ⟨i, hi, rfl⟩
    exact ⟨i, List.mem_range.mpr hi, rfl⟩

theorem mem_gridTimes_iff_of_aligned {s e P : ℤ} (hP : 0 < P) {t : ℤ} :
    t ∈ gridTimes s e P ↔ s ≤ t ∧ t < e ∧ (t - s) % P = 0 := by
  rw [mem_gridTimes_iff]
  constructor
  · rintro ⟨i, hi, rfl⟩
    have h0 : (0 : ℤ) ≤ (i : ℤ) * P := mul_nonneg (Int.natCast_nonneg i) hP.le
    refine ⟨by linarith, (lt_gridSize_iff hP i).mp hi, ?_⟩
    simp [Int.mul_emod_left]
  · rintro ⟨hst, hte, hmod⟩
    obtain ⟨k, hk⟩ : P ∣ t - s := Int.dvd_of_emod_eq_zero hmod
    have hk0 : 0 ≤ k := by nlinarith
    refine ⟨k.toNat, ?_, ?_⟩
    · rw [lt_gridSize_iff hP]
      rw [Int.toNat_of_nonneg hk0]
      nlinarith
    · rw [Int.toNat_of_nonneg hk0]
      linarith [hk]

/-! ## Threshold filter: the single pass and the filtering policy -/

theorem filterStatPass_foldl_invariant (l : List ℚ) :
    ∀ (mn mx sm : ℚ), mn ≤ mx →
      let r := l.foldl filterStatStep (mn, mx, sm)
      (r.1 = mn ∨ r.1 ∈ l) ∧ r.1 ≤ mn ∧ (∀ v ∈ l, r.1 ≤ v) ∧
      (r.2.1 = mx ∨ r.2.1 ∈ l) ∧ mx ≤ r.2.1 ∧ (∀ v ∈ l, v ≤ r.2.1) ∧
      r.2.2 = sm + l.sum ∧ r.1 ≤ r.2.1 := by
  induction l with
  | nil => intro mn mx sm h; simpa using h
  | cons v tl ih =>
    intro mn mx sm h
    simp only [List.foldl_cons]
    by_cases h1 : v < mn
    · have step : filterStatStep (mn, mx, sm) v = (v, mx, sm + v) := by
        simp [filterStatStep, h1]
      rw [step]
      obtain ⟨m1, m2, m3, x1, x2, x3, s1, mx1⟩ := ih v mx (sm + v) (by linarith)
      refine ⟨?_, by rcases m1 with h' | h' <;> [linarith; linarith [m2]], ?_, ?_,
        x2, ?_, by rw [s1]; simp; ring, mx1⟩
      · rcases m1 with h' | h'
        · exact Or.inr (by simp [h'])
        · exact Or.inr (List.mem_cons_of_mem _ h')
      · intro w hw
        rcases List.mem_cons.mp hw with rfl | hw'
        · exact m2
        · exact m3 w hw'
      · rcases x1 with h' | h'
        · exact Or.inl h'
        · exact Or.inr (List.mem_cons_of_mem _ h')
      · intro w hw
        rcases List.mem_cons.mp hw with rfl | hw'
        · linarith
        · exact x3 w hw'
    · by_cases h2 : v > mx
      · have step : filterStatStep (mn, mx, sm) v = (mn, v, sm + v) := by
          simp [filterStatStep, h1, h2]
        rw [step]
        obtain ⟨m1, m2, m3, x1, x2, x3, s1, mx1⟩ := ih mn v (sm + v) (by linarith)
        refine ⟨?_, m2, ?_, ?_, by linarith, ?_, by rw [s1]; simp; ring, mx1⟩
        · rcases m1 with h' | h'
          · exact Or.inl h'
          · exact Or.inr (List.mem_cons_of_mem _ h')
        · intro w hw
          rcases List.mem_cons.mp hw with rfl | hw'
          · linarith [m2]
          · exact m3 w hw'
        · rcases x1 with h' | h'
          · exact Or.inr (by simp [h'])
          · exact Or.inr (List.mem_cons_of_mem _ h')
        · intro w hw
          rcases List.mem_cons.mp hw with rfl | hw'
          · exact x2
          · exact x3 w hw'
      · have step : filterStatStep (mn, mx, sm) v = (mn, mx, sm + v) := by
          simp [filterStatStep, h1, h2]
        rw [step]
        obtain ⟨m1, m2, m3, x1, x2, x3, s1, mx1⟩ := ih mn mx (sm + v) h
        refine ⟨?_, m2, ?_, ?_, x2, ?_, by rw [s1]; simp; ring, mx1⟩
        · rcases m1 with h' | h'
          · exact Or.inl h'
          · exact Or.inr (List.mem_cons_of_mem _ h')
        · intro w hw
          rcases List.mem_cons.mp hw with rfl | hw'
          · linarith [m2, not_lt.mp h1]
          · exact m3 w hw'
        · rcases x1 with h' | h'
          · exact Or.inl h'
          · exact Or.inr (List.mem_cons_of_mem _ h')
        · intro w hw
          rcases List.mem_cons.mp hw with rfl | hw'
          · linarith [x2, not_lt.mp h2]
          · exact x3 w hw'

theorem applyCondition_true_iff (c : FilterCondition) (a b : ℚ) :
    applyCondition c a b = true ↔ conditionHolds c a b := by
  cases c <;> simp [applyCondition, conditionHolds]

/-- **C10.** For a series with at least one data point, the single pass of the
threshold filter computes the reference statistics: its `min` is a least value
of the series, its `max` a greatest value, its `sum` the sum of all values
(hence `avg = sum / count`), and the series is kept (the filter matches) iff
the predicate's comparison applied to the chosen statistic and the threshold
holds. -/
theorem thresholdFilter_stats_correct (v0 : ℚ) (rest : List ℚ)
    (s : FilterStat) (c : FilterCondition) (x : ℚ) :
    ((filterStatPass v0 rest).1 ∈ (v0 :: rest) ∧
      ∀ v ∈ v0 :: rest, (filterStatPass v0 rest).1 ≤ v) ∧
    ((filterStatPass v0 rest).2.1 ∈ (v0 :: rest) ∧
      ∀ v ∈ v0 :: rest, v ≤ (filterStatPass v0 rest).2.1) ∧
    (filterStatPass v0 rest).2.2 = (v0 :: rest).sum ∧
    (statMatchesFilter (v0 :: rest) (.pred s c x) = true ↔
      conditionHolds c
        (match s with
          | .MIN => (filterStatPass v0 rest).1
          | .MAX => (filterStatPass v0 rest).2.1
          | .AVG => (v0 :: rest).sum / ((v0 :: rest).length : ℚ)
          | .SUM => (v0 :: rest).sum) x) := by
  obtain ⟨m1, m2, m3, x1, x2, x3, s1, mx1⟩ :=
    filterStatPass_foldl_invariant rest v0 v0 v0 le_rfl
  have hsum : (filterStatPass v0 rest).2.2 = (v0 :: rest).sum := by
    rw [filterStatPass] at *
    rw [s1]; simp
  refine ⟨⟨?_, ?_⟩, ⟨?_, ?_⟩, hsum, ?_⟩
  · rcases m1 with h' | h'
    · simp [filterStatPass, h']
    · exact List.mem_cons_of_mem _ h'
  · intro v hv
    rcases List.mem_cons.mp hv with rfl | hv'
    · exact m2
    · exact m3 v hv'
  · rcases x1 with h' | h'
    · simp [filterStatPass, h']
    · exact List.mem_cons_of_mem _ h'
  · intro v hv
    rcases List.mem_cons.mp hv with rfl | hv'
    · exact x2
    · exact x3 v hv'
  · cases s
    case MIN =>
      rw [show statMatchesFilter (v0 :: rest) (.pred .MIN c x) =
          applyCondition c (filterStatPass v0 rest).1 x from rfl,
        applyCondition_true_iff]
    case MAX =>
      rw [show statMatchesFilter (v0 :: rest) (.pred .MAX c x) =
          applyCondition c (filterStatPass v0 rest).2.1 x from rfl,
        applyCondition_true_iff]
    case AVG =>
      rw [show statMatchesFilter (v0 :: rest) (.pred .AVG c x) =
          applyCondition c
            ((filterStatPass v0 rest).2.2 / (((v0 :: rest).length : ℕ) : ℚ)) x
          from rfl,
        applyCondition_true_iff, hsum]
    case SUM =>
      rw [show statMatchesFilter (v0 :: rest) (.pred .SUM c x) =
          applyCondition c (filterStatPass v0 rest).2.2 x from rfl,
        applyCondition_true_iff, hsum]

/-- **C8.** The empty predicate passes every input series through (output
membership count equals input count), including zero-length ones, while a
non-empty predicate never matches a zero-length series, which is therefore
excluded from the output. -/
theorem thresholdFilter_empty_and_nodata (metrics : List OutSeries)
    (m : OutSeries) (s : FilterStat) (c : FilterCondition) (x : ℚ)
    (hm : m ∈ metrics) (hz : m.Values = []) :
    (filterGetMetricData .empty metrics).length = metrics.length ∧
    statMatchesFilter [] (.pred s c x) = false ∧
    m ∉ filterGetMetricData (.pred s c x) metrics := by
  refine ⟨?_, rfl, ?_⟩
  · simp [filterGetMetricData, statMatchesFilter]
  · intro hmem
    have := (List.mem_filter.mp hmem).2
    rw [hz] at this
    simp [statMatchesFilter] at this

/-- Witness for C8 at concrete inputs. -/
theorem thresholdFilter_empty_and_nodata_witness :
    (⟨"a", [], []⟩ : OutSeries) ∈ [(⟨"a", [], []⟩ : OutSeries)] ∧
    (⟨"a", [], []⟩ : OutSeries).Values = [] ∧
    ((filterGetMetricData .empty [⟨"a", [], []⟩]).length = 1 ∧
      statMatchesFilter [] (.pred .MAX .gt 70) = false ∧
      (⟨"a", [], []⟩ : OutSeries) ∉
        filterGetMetricData (.pred .MAX .gt 70) [⟨"a", [], []⟩]) :=
  ⟨by simp, rfl,
    thresholdFilter_empty_and_nodata [⟨"a", [], []⟩] ⟨"a", [], []⟩ .MAX .gt 70
      (by simp) rfl⟩

/-! ## Time-shift duration parsing: the fractional seconds are truncated -/

/-- **C7.** The claim states the parsed interval carries the seconds
component's fractional part to millisecond precision.  The code applies
`parseInt` to the seconds capture, so `PT1.5S` parses to `1` (not `1.5`) and
`PT0.5S` parses to `0` and is then rejected by the `must be > 0 seconds`
validation although it denotes a positive duration.  The integer components do
follow `days·86400 + hours·3600 + minutes·60 + seconds` (last conjunct:
`P1DT3H2M5S` is `1·86400 + 3·3600 + 2·60 + 5 = 97325`). -/
theorem durationString_fraction_truncated :
    parseISO8601DurationString "PT1.5S".toList = some 1 ∧
    parseISO8601DurationString "PT0.5S".toList = some 0 ∧
    validateShiftInterval "PT0.5S".toList = none ∧
    parseISO8601DurationString "P1DT3H2M5S".toList = some 97325 := by
  refine ⟨?_, ?_, ?_, ?_⟩ <;> decide

/-! ## Multi-region connector: all-or-nothing failure policy -/

theorem promiseAll_error_of_mem {ε α : Type} {l : List (Except ε α)} {e : ε}
    (h : Except.error e ∈ l) :
    ∃ e', promiseAll l = Except.error e' ∧ Except.error e' ∈ l := by
  induction l with
  | nil => simp at h
  | cons x xs ih =>
    cases x with
    | error e0 => exact ⟨e0, rfl, List.mem_cons_self _ _⟩
    | ok a =>
      have hx : Except.error e ∈ xs := by
        rcases List.mem_cons.mp h with h' | h'
        · exact absurd h' (by simp)
        · exact h'
      obtain ⟨e', he', hm⟩ := ih hx
      refine ⟨e', ?_, List.mem_cons_of_mem _ hm⟩
      simp only [promiseAll, he']

/-- A sample regional-fetch collaborator in which exactly one of the regions
fails (used by the witness of the failure-policy theorem). -/
def sampleRegionFetch : String → Except CWError RawMetric := fun region =>
  if region = "eu-west-1" then .error ⟨"getMetricData failed", none⟩
  else .ok ⟨region.replace "-" "_", [0], [1]⟩

/-- **C9.** If the fetch of any requested region fails (SDK errors carry no
`Validation` cause), the whole invocation produces the single
`InternalError` failure response; no series accompany it. -/
theorem multiRegion_failure_policy (fetch : String → Except CWError RawMetric)
    (regionList : List String) (r : String) (e : CWError)
    (hr : r ∈ regionList) (hf : fetch r = .error e)
    (hcause : ∀ r' e', fetch r' = .error e' → e'.cause = none) :
    (∃ msg, multiRegionHandler fetch regionList = .failure "InternalError" msg) ∧
    ∀ series, multiRegionHandler fetch regionList ≠ .results series := by
  have hmem : Except.error e ∈ regionList.map fetch := by
    rw [← hf]
    exact List.mem_map_of_mem fetch hr
  obtain ⟨e', he', hm⟩ := promiseAll_error_of_mem hmem
  obtain ⟨r', _, hfr'⟩ := List.mem_map.mp hm
  have hc : e'.cause = none := hcause r' e' hfr'
  constructor
  · exact ⟨e'.msg, by simp [multiRegionHandler, multiRegionGetMetricData, he', hc]⟩
  · intro series hcon
    simp [multiRegionHandler, multiRegionGetMetricData, he'] at hcon

/-- Witness for C9: three regions, the second fails. -/
theorem multiRegion_failure_policy_witness :
    ("eu-west-1" ∈ ["us-east-1", "eu-west-1", "us-west-2"] ∧
      sampleRegionFetch "eu-west-1" = .error ⟨"getMetricData failed", none⟩) ∧
    ((∃ msg, multiRegionHandler sampleRegionFetch
        ["us-east-1", "eu-west-1", "us-west-2"] = .failure "InternalError" msg) ∧
      ∀ series, multiRegionHandler sampleRegionFetch
        ["us-east-1", "eu-west-1", "us-west-2"] ≠ .results series) :=
  ⟨⟨by simp, by simp [sampleRegionFetch]⟩,
    multiRegion_failure_policy sampleRegionFetch
      ["us-east-1", "eu-west-1", "us-west-2"] "eu-west-1"
      ⟨"getMetricData failed", none⟩ (by simp) (by simp [sampleRegionFetch])
      (by
        intro r' e' h
        by_cases hr' : r' = "eu-west-1" <;> simp [sampleRegionFetch, hr'] at h
        rw [← h])⟩

/-! ## Histogram bin mapping -/

theorem BIN_SIZE_pos : 0 < BIN_SIZE := by
  unfold BIN_SIZE EPSILON
  exact Real.log_pos (by norm_num)

theorem constrain_le_constrain {a b : ℤ} (h : a ≤ b) :
    constrainBinToAllowedRange a ≤ constrainBinToAllowedRange b := by
  unfold constrainBinToAllowedRange MIN_BIN_RANGE MAX_BIN_RANGE
  split_ifs <;> omega

theorem constrain_bounds (a : ℤ) :
    -7000 ≤ constrainBinToAllowedRange a ∧ constrainBinToAllowedRange a ≤ 7000 := by
  unfold constrainBinToAllowedRange MIN_BIN_RANGE MAX_BIN_RANGE
  split_ifs <;> omega

theorem getBinNumber_of_pos {v : ℝ} (hv : 0 < v) :
    getBinNumber v = constrainBinToAllowedRange ⌊Real.log v / BIN_SIZE⌋ := by
  unfold getBinNumber ZERO_VALUE
  rw [if_neg hv.ne', abs_of_pos hv, if_pos hv]

theorem getBinNumber_of_neg {v : ℝ} (hv : v < 0) :
    getBinNumber v =
      NEGATIVE_ONE_BIN_OFFSET - constrainBinToAllowedRange ⌊Real.log (-v) / BIN_SIZE⌋ := by
  unfold getBinNumber ZERO_VALUE
  rw [if_neg hv.ne, abs_of_neg hv, if_neg (not_lt.mpr hv.le)]

theorem getBinNumber_pos_range {v : ℝ} (hv : 0 < v) :
    -7000 ≤ getBinNumber v ∧ getBinNumber v ≤ 7000 := by
  rw [getBinNumber_of_pos hv]
  exact constrain_bounds _

theorem getBinNumber_neg_range {v : ℝ} (hv : v < 0) :
    -21002 ≤ getBinNumber v ∧ getBinNumber v ≤ -7002 := by
  rw [getBinNumber_of_neg hv]
  have h := constrain_bounds ⌊Real.log (-v) / BIN_SIZE⌋
  unfold NEGATIVE_ONE_BIN_OFFSET MAX_BIN_RANGE
  omega

theorem getBinNumber_zero : getBinNumber 0 = ZERO_VALUE_BIN := by
  unfold getBinNumber ZERO_VALUE
  rw [if_pos rfl]

/-- **C4.** The histogram bin mapping is monotone on positive values
(`0 < a < b → bin a ≤ bin b`), maps `-x` and `x` to different bins for every
`x ≠ 0`, and maps `0` to the constant sentinel bin, distinct from the bin of
every nonzero value. -/
theorem getBinNumber_spec (a b x : ℝ) (ha : 0 < a) (hab : a < b) (hx : x ≠ 0) :
    getBinNumber a ≤ getBinNumber b ∧
    getBinNumber (-x) ≠ getBinNumber x ∧
    getBinNumber 0 = ZERO_VALUE_BIN ∧
    getBinNumber x ≠ getBinNumber 0 := by
  have hb : 0 < b := ha.trans hab
  refine ⟨?_, ?_, getBinNumber_zero, ?_⟩
  · rw [getBinNumber_of_pos ha, getBinNumber_of_pos hb]
    apply constrain_le_constrain
    apply Int.floor_le_floor
    rw [div_le_div_iff_of_pos_right BIN_SIZE_pos]
    exact (Real.log_le_log_iff ha hb).mpr hab.le
  · rcases hx.lt_or_lt with h | h
    · have h1 := getBinNumber_neg_range h
      have h2 := getBinNumber_pos_range (by linarith : (0 : ℝ) < -x)
      omega
    · have h1 := getBinNumber_pos_range h
      have h2 := getBinNumber_neg_range (by linarith : -x < 0)
      omega
  · rw [getBinNumber_zero]
    unfold ZERO_VALUE_BIN MIN_BIN_RANGE MAX_BIN_RANGE
    rcases hx.lt_or_lt with h | h
    · have h1 := getBinNumber_neg_range h
      omega
    · have h1 := getBinNumber_pos_range h
      omega

/-! ## Histogram bucket construction: evaluation lemmas and the loop bugs -/

theorem constrain_of_mem {a : ℤ} (h1 : -7000 ≤ a) (h2 : a ≤ 7000) :
    constrainBinToAllowedRange a = a := by
  unfold constrainBinToAllowedRange MIN_BIN_RANGE MAX_BIN_RANGE
  split_ifs <;> omega

theorem getBinNumber_one : getBinNumber 1 = 0 := by
  rw [getBinNumber_of_pos one_pos, Real.log_one, zero_div, Int.floor_zero]
  exact constrain_of_mem (by norm_num) (by norm_num)

theorem getBinNumber_eleven_tenths : getBinNumber (11 / 10 : ℝ) = 1 := by
  rw [getBinNumber_of_pos (by norm_num)]
  have h : Real.log (11 / 10 : ℝ) / BIN_SIZE = 1 := by
    unfold BIN_SIZE EPSILON
    rw [show (1 : ℝ) + 0.1 = 11 / 10 by norm_num]
    exact div_self (ne_of_gt (Real.log_pos (by norm_num)))
  rw [h, Int.floor_one]
  exact constrain_of_mem (by norm_num) (by norm_num)

theorem histogramBucketLoop_succ (maxBucketNum : ℤ) (incBucket : ℚ) (fuel : ℕ)
    (bin : ℚ) (bottom : ℝ) (h : bin ≤ (maxBucketNum : ℚ)) :
    histogramBucketLoop maxBucketNum incBucket (fuel + 1) bin bottom =
      (histogramBucketLoop maxBucketNum incBucket fuel (bin + incBucket)
          (getBinTop (round bin))).map
        (fun rest =>
          ⟨round bin, bottom, getBinTop (round bin),
            (getBinTop (round bin) + bottom) / 2⟩ :: rest) := by
  rw [histogramBucketLoop, if_pos h]

theorem histogramBucketLoop_stop (maxBucketNum : ℤ) (incBucket : ℚ) (fuel : ℕ)
    (bin : ℚ) (bottom : ℝ) (h : ¬bin ≤ (maxBucketNum : ℚ)) :
    histogramBucketLoop maxBucketNum incBucket fuel bin bottom = some [] := by
  cases fuel <;> (rw [histogramBucketLoop, if_neg h])

theorem histogramBucketLoop_zero_inc_diverges (maxBucketNum : ℤ) (fuel : ℕ) :
    ∀ (bin : ℚ) (bottom : ℝ), bin ≤ (maxBucketNum : ℚ) →
      histogramBucketLoop maxBucketNum 0 fuel bin bottom = none := by
  induction fuel with
  | zero =>
    intro bin bottom h
    rw [histogramBucketLoop, if_pos h]
  | succ fuel ih =>
    intro bin bottom h
    rw [histogramBucketLoop_succ _ _ _ _ _ h,
      ih (bin + 0) (getBinTop (round bin)) (by simpa using h)]
    rfl

/-- **C5.** The claim states `getHistogramMetricDefinitions` terminates for
every `Minimum ≤ Maximum` and `1 ≤ bucketCount ≤ 500`.  When the (floored)
minimum and the maximum fall into the same bin — e.g. a constant metric with
`min = max = 1` — the loop increment `numBuckets / bucketCount` is `0`, the
cursor never advances past `maxBucketNum`, and the loop never terminates: no
amount of fuel produces a result. -/
theorem histogram_definitions_nonterminating (fuel : ℕ) :
    getHistogramMetricDefinitions 1 1 1 fuel = none := by
  have hmin : ¬((1 : ℝ) < MIN_VALUE_FOR_HIST) := by
    unfold MIN_VALUE_FOR_HIST
    norm_num
  unfold getHistogramMetricDefinitions
  dsimp only
  rw [if_neg hmin, getBinNumber_one]
  norm_num
  exact histogramBucketLoop_zero_inc_diverges 0 fuel 0 1 (by norm_num)

/-- **C6.** The claim states bucket construction with `bucketCount = 1`
produces exactly one bucket.  The loop runs with `bin ≤ maxBucketNum`
inclusive and an increment spanning the whole range, so for `min = 1`,
`max = 1.1` (bins 0 and 1) and `bucketCount = 1` it emits **two** bucket
definitions, not one. -/
theorem histogram_bucketCount_one_emits_two :
    (getHistogramMetricDefinitions 1 (11 / 10) 1 5).map List.length = some 2 := by
  have hmin : ¬((1 : ℝ) < MIN_VALUE_FOR_HIST) := by
    unfold MIN_VALUE_FOR_HIST
    norm_num
  unfold getHistogramMetricDefinitions
  dsimp only
  rw [if_neg hmin, getBinNumber_one, getBinNumber_eleven_tenths]
  norm_num
  rw [show (5 : ℕ) = 4 + 1 from rfl,
    histogramBucketLoop_succ _ _ _ _ _ (by norm_num),
    show (4 : ℕ) = 3 + 1 from rfl,
    histogramBucketLoop_succ _ _ _ _ _ (by norm_num),
    histogramBucketLoop_stop _ _ _ _ _ (by norm_num)]
  exact ⟨_, rfl, rfl⟩

/-- Witness for C4 at `a = 1`, `b = 2`, `x = 1`. -/
theorem getBinNumber_spec_witness :
    ((0 : ℝ) < 1 ∧ (1 : ℝ) < 2 ∧ (1 : ℝ) ≠ 0) ∧
    (getBinNumber 1 ≤ getBinNumber 2 ∧
      getBinNumber (-1) ≠ getBinNumber 1 ∧
      getBinNumber 0 = ZERO_VALUE_BIN ∧
      getBinNumber 1 ≠ getBinNumber 0) :=
  ⟨⟨by norm_num, by norm_num, by norm_num⟩,
    getBinNumber_spec 1 2 1 (by norm_num) (by norm_num) (by norm_num)⟩

/-! ## Time-shift: shift index 0 is the identity on the query window -/

theorem gridTimes_pairwise {s e P : ℤ} (hP : 0 < P) :
    (gridTimes s e P).Pairwise (· < ·) := by
  unfold gridTimes
  refine List.Pairwise.map _ ?_ (List.pairwise_lt_range _)
  intro a b hab
  have hab' : (a : ℤ) < (b : ℤ) := by exact_mod_cast hab
  have := mul_lt_mul_of_pos_right hab' hP
  linarith

theorem pairwise_fst_zip {l1 : List ℤ} {l2 : List ℚ}
    (h : l1.Pairwise (· < ·)) :
    (l1.zip l2).Pairwise (fun p q : ℤ × ℚ => p.1 < q.1) := by
  induction l1 generalizing l2 with
  | nil => simp
  | cons a tl ih =>
    cases l2 with
    | nil => simp
    | cons b tl2 =>
      rw [List.zip_cons_cons, List.pairwise_cons]
      constructor
      · rintro ⟨x, y⟩ hq
        exact (List.pairwise_cons.mp h).1 x (List.of_mem_zip hq).1
      · exact ih (List.pairwise_cons.mp h).2

theorem eq_of_mem_pairwise_fst {l : List (ℤ × ℚ)}
    (hl : l.Pairwise (fun p q : ℤ × ℚ => p.1 < q.1)) {p q : ℤ × ℚ}
    (hp : p ∈ l) (hq : q ∈ l) (h : p.1 = q.1) : p = q := by
  induction l with
  | nil => cases hp
  | cons a tl ih =>
    have h1 := (List.pairwise_cons.mp hl).1
    have h2 := (List.pairwise_cons.mp hl).2
    rcases List.mem_cons.mp hp with rfl | hp'
    · rcases List.mem_cons.mp hq with rfl | hq'
      · rfl
      · exact absurd h (ne_of_lt (h1 q hq'))
    · rcases List.mem_cons.mp hq with rfl | hq'
      · exact absurd h.symm (ne_of_lt (h1 p hp'))
      · exact ih h2 hp' hq'

theorem nodup_of_pairwise_fst_lt {l : List (ℤ × ℚ)}
    (h : l.Pairwise (fun p q : ℤ × ℚ => p.1 < q.1)) : l.Nodup := by
  refine h.imp ?_
  intro p q hlt he
  rw [he] at hlt
  exact absurd hlt (lt_irrefl _)

theorem buildTimestampMap_eq_some_iff {fullTs : List ℤ} {fullVs : List ℚ}
    (hsorted : fullTs.Pairwise (· < ·)) {t : ℤ} {v : ℚ} :
    buildTimestampMap fullTs fullVs t = some v ↔ (t, v) ∈ fullTs.zip fullVs := by
  unfold buildTimestampMap
  constructor
  · intro h
    obtain ⟨p, hp, hps⟩ := Option.map_eq_some'.mp h
    have hpt : p.1 = t := by simpa using List.find?_some hp
    have hpm : p ∈ fullTs.zip fullVs :=
      List.mem_reverse.mp (List.mem_of_find?_eq_some hp)
    obtain ⟨p1, p2⟩ := p
    simp only at hpt hps
    rw [hpt, hps] at hpm
    exact hpm
  · intro h
    have hsome : ((fullTs.zip fullVs).reverse.find? (fun p => p.1 == t)).isSome := by
      rw [List.find?_isSome]
      exact ⟨(t, v), List.mem_reverse.mpr h, by simp⟩
    obtain ⟨p, hp⟩ := Option.isSome_iff_exists.mp hsome
    have hpt : p.1 = t := by simpa using List.find?_some hp
    have hpm : p ∈ fullTs.zip fullVs :=
      List.mem_reverse.mp (List.mem_of_find?_eq_some hp)
    have hpq : p = (t, v) :=
      eq_of_mem_pairwise_fst (pairwise_fst_zip hsorted) hpm h hpt
    rw [hp, hpq]
    rfl

/-- The shift-0 points of `shiftFullMetricData` are exactly the raw samples
inside the half-open query window, in order. -/
theorem shift0_pts_eq (fullTs : List ℤ) (fullVs : List ℚ) (S E P : ℤ)
    (hP : 0 < P) (hsorted : fullTs.Pairwise (· < ·))
    (haligned : ∀ ts ∈ fullTs, (ts - S) % P = 0) :
    (gridTimes S E P).filterMap
        (fun time => (buildTimestampMap fullTs fullVs time).map (fun v => (time, v)))
      = (fullTs.zip fullVs).filter
          (fun p => decide (S ≤ p.1) && decide (p.1 < E)) := by
  have hL : ((gridTimes S E P).filterMap
      (fun time =>
        (buildTimestampMap fullTs fullVs time).map (fun v => (time, v)))).Pairwise
      (fun p q : ℤ × ℚ => p.1 < q.1) := by
    rw [List.pairwise_filterMap]
    refine (gridTimes_pairwise hP).imp ?_
    intro a b hab x hx y hy
    obtain ⟨xv, _, rfl⟩ := Option.map_eq_some'.mp hx
    obtain ⟨yv, _, rfl⟩ := Option.map_eq_some'.mp hy
    exact hab
  have hR : ((fullTs.zip fullVs).filter
      (fun p => decide (S ≤ p.1) && decide (p.1 < E))).Pairwise
      (fun p q : ℤ × ℚ => p.1 < q.1) :=
    (pairwise_fst_zip hsorted).filter _
  have hmem : ∀ p : ℤ × ℚ,
      p ∈ (gridTimes S E P).filterMap
        (fun time =>
          (buildTimestampMap fullTs fullVs time).map (fun v => (time, v))) ↔
      p ∈ (fullTs.zip fullVs).filter
        (fun p => decide (S ≤ p.1) && decide (p.1 < E)) := by
    intro p
    constructor
    · intro hp
      obtain ⟨time, htime, hfp⟩ := List.mem_filterMap.mp hp
      obtain ⟨v, hv, rfl⟩ := Option.map_eq_some'.mp hfp
      have hzip := (buildTimestampMap_eq_some_iff hsorted).mp hv
      have hw := (mem_gridTimes_iff_of_aligned hP).mp htime
      rw [List.mem_filter]
      exact ⟨hzip, by simp [hw.1, hw.2.1]⟩
    · intro hp
      obtain ⟨hzip, hcond⟩ := List.mem_filter.mp hp
      obtain ⟨p1, p2⟩ := p
      have h1 : S ≤ p1 ∧ p1 < E := by simpa using hcond
      have hts : p1 ∈ fullTs := (List.of_mem_zip hzip).1
      have hgrid : p1 ∈ gridTimes S E P :=
        (mem_gridTimes_iff_of_aligned hP).mpr ⟨h1.1, h1.2, haligned p1 hts⟩
      refine List.mem_filterMap.mpr ⟨p1, hgrid, ?_⟩
      rw [(buildTimestampMap_eq_some_iff hsorted).mpr hzip]
      rfl
  have hnL := nodup_of_pairwise_fst_lt hL
  have hnR := nodup_of_pairwise_fst_lt hR
  haveI : IsAntisymm (ℤ × ℚ) (fun p q : ℤ × ℚ => p.1 < q.1) :=
    ⟨fun p q h1 h2 => absurd (h1.trans h2) (lt_irrefl _)⟩
  exact List.eq_of_perm_of_sorted
    ((List.perm_ext_iff_of_nodup hnL hnR).mpr hmem) hL hR

/-- **C2.** For a positive period and a raw series on the query grid (strictly
increasing, period-aligned timestamps, parallel arrays of equal length), the
first series produced by `shiftFullMetricData` — shift index 0 — is exactly the
raw series restricted to `[StartTime, EndTime)`: same timestamp/value pairs in
order, and its timestamp array is the raw timestamps filtered to the window. -/
theorem timeshift_shift_zero_identity (fullTs : List ℤ) (fullVs : List ℚ)
    (S E P shiftInterval : ℤ) (numberOfShifts : ℕ)
    (hP : 0 < P) (hlen : fullTs.length = fullVs.length)
    (hsorted : fullTs.Pairwise (· < ·))
    (haligned : ∀ ts ∈ fullTs, (ts - S) % P = 0) :
    ∃ s0 rest,
      shiftFullMetricData fullTs fullVs S E P shiftInterval numberOfShifts =
        s0 :: rest ∧
      s0.Timestamps.zip s0.Values =
        (fullTs.zip fullVs).filter
          (fun p => decide (S ≤ p.1) && decide (p.1 < E)) ∧
      s0.Timestamps = fullTs.filter (fun t => decide (S ≤ t) && decide (t < E)) := by
  unfold shiftFullMetricData
  rw [List.range_succ_eq_map, List.map_cons]
  refine ⟨_, _, rfl, ?_, ?_⟩
  · show (List.map Prod.fst _).zip (List.map Prod.snd _) = _
    rw [List.zip_map']
    have hpts : ((gridTimes S E P).filterMap
        (fun time =>
          (buildTimestampMap fullTs fullVs time).map (fun v => (time, v)))).map
          (fun p : ℤ × ℚ => (p.1, p.2)) =
        (gridTimes S E P).filterMap
          (fun time =>
            (buildTimestampMap fullTs fullVs time).map (fun v => (time, v))) := by
      simp
    simp only [Nat.cast_zero, zero_mul, sub_zero]
    rw [hpts]
    exact shift0_pts_eq fullTs fullVs S E P hP hsorted haligned
  · show List.map Prod.fst _ = _
    simp only [Nat.cast_zero, zero_mul, sub_zero]
    rw [shift0_pts_eq fullTs fullVs S E P hP hsorted haligned]
    have := List.filter_map (p := fun t => decide (S ≤ t) && decide (t < E))
      (f := (Prod.fst : ℤ × ℚ → ℤ)) (l := fullTs.zip fullVs)
    rw [show (fun p : ℤ × ℚ => decide (S ≤ p.1) && decide (p.1 < E)) =
        ((fun t => decide (S ≤ t) && decide (t < E)) ∘ Prod.fst) from rfl]
    rw [← this, List.map_fst_zip fullTs fullVs (le_of_eq hlen)]

/-- Witness for C2: period 60, window `[60, 180)`, raw samples at
`0, 60, 120`. -/
theorem timeshift_shift_zero_identity_witness :
    ((0 : ℤ) < 60 ∧ ([0, 60, 120] : List ℤ).length = ([1, 2, 3] : List ℚ).length ∧
      ([0, 60, 120] : List ℤ).Pairwise (· < ·) ∧
      ∀ ts ∈ ([0, 60, 120] : List ℤ), (ts - 60) % 60 = 0) ∧
    (∃ s0 rest,
      shiftFullMetricData [0, 60, 120] [1, 2, 3] 60 180 60 60 1 = s0 :: rest ∧
      s0.Timestamps.zip s0.Values =
        (([0, 60, 120] : List ℤ).zip ([1, 2, 3] : List ℚ)).filter
          (fun p => decide ((60 : ℤ) ≤ p.1) && decide (p.1 < 180)) ∧
      s0.Timestamps =
        ([0, 60, 120] : List ℤ).filter
          (fun t => decide ((60 : ℤ) ≤ t) && decide (t < 180))) :=
  ⟨⟨by norm_num, by decide, by decide, by decide⟩,
    timeshift_shift_zero_identity [0, 60, 120] [1, 2, 3] 60 180 60 60 1
      (by norm_num) (by decide) (by decide) (by decide)⟩

/-! ## Moving average: the sliding-window invariant -/

theorem lt_add_mul_iff {S x P : ℤ} (hP : 0 < P) : S < S + x * P ↔ 0 < x := by
  constructor
  · intro h
    by_contra hx
    push_neg at hx
    have hxP : x * P ≤ 0 := mul_nonpos_iff.mpr (Or.inr ⟨hx, hP.le⟩)
    linarith
  · intro h
    have := mul_pos h hP
    linarith

theorem le_add_mul_iff {S x P : ℤ} (hP : 0 < P) : S ≤ S + x * P ↔ 0 ≤ x := by
  constructor
  · intro h
    by_contra hx
    push_neg at hx
    have hxP : x * P < 0 := mul_neg_of_neg_of_pos hx hP
    linarith
  · intro h
    have : 0 ≤ x * P := mul_nonneg h hP.le
    linarith

/-- The trailing window ending at the `m`-th walked slot, reversed, is the
ascending slice of slot lookups that the loop's array holds. -/
theorem windowSlots_reverse (tsMap : ℤ → Option ℚ) (R P : ℤ) (N m : ℕ)
    (hm : N - 1 ≤ m) :
    (windowSlots tsMap P N (R + (m : ℤ) * P)).reverse =
      (List.range' (m + 1 - N) N).map (fun i : ℕ => tsMap (R + (i : ℤ) * P)) := by
  unfold windowSlots
  rw [← List.map_reverse, List.range_eq_range', List.reverse_range',
    List.range'_eq_map_range, List.map_map, List.map_map]
  apply List.map_congr_left
  intro i hi
  have hiN : i < N := List.mem_range.mp hi
  simp only [Function.comp_apply]
  congr 1
  have h1 : ((0 + N - 1 - i : ℕ) : ℤ) = (N : ℤ) - 1 - (i : ℤ) := by omega
  have h2 : ((m + 1 - N + i : ℕ) : ℤ) = (m : ℤ) + 1 - (N : ℤ) + (i : ℤ) := by omega
  rw [h1, h2]
  ring

theorem windowCount_eq_slice (tsMap : ℤ → Option ℚ) (R P : ℤ) (N m : ℕ)
    (hm : N - 1 ≤ m) :
    windowCount tsMap P N (R + (m : ℤ) * P) =
      (((List.range' (m + 1 - N) N).map
        (fun i : ℕ => tsMap (R + (i : ℤ) * P))).filterMap id).length := by
  unfold windowCount
  rw [← windowSlots_reverse tsMap R P N m hm, List.filterMap_reverse,
    List.length_reverse]

theorem windowSum_eq_slice (tsMap : ℤ → Option ℚ) (R P : ℤ) (N m : ℕ)
    (hm : N - 1 ≤ m) :
    windowSum tsMap P N (R + (m : ℤ) * P) =
      (((List.range' (m + 1 - N) N).map
        (fun i : ℕ => tsMap (R + (i : ℤ) * P))).filterMap id).sum := by
  unfold windowSum
  rw [← windowSlots_reverse tsMap R P N m hm, List.filterMap_reverse,
    List.sum_reverse]

/-- The full loop invariant of `metricDataToMovingAverage` when the walk
starts at the theoretical lookback start `R = StartTime - (N-1)·Period`:
after `m` iterations the window array holds the lookups of the last
`min m N` slots, the accumulators hold the count and sum of the present
values in it, and the outputs hold one point per slot index `i ≥ N-1` whose
trailing `N`-slot window has a present sample. -/
theorem ma_fold_invariant (tsMap : ℤ → Option ℚ) (S R P : ℤ) (N : ℕ)
    (hP : 0 < P) (hN : 2 ≤ N) (hR : R = S - ((N : ℤ) - 1) * P) (m : ℕ) :
    ((List.range m).map (fun i : ℕ => R + (i : ℤ) * P)).foldl (maStep tsMap S)
        maInit =
      ⟨(List.range' (m - min m N) (min m N)).map
          (fun i : ℕ => tsMap (R + (i : ℤ) * P)),
        ((((List.range' (m - min m N) (min m N)).map
            (fun i : ℕ => tsMap (R + (i : ℤ) * P))).filterMap id).length : ℤ),
        (((List.range' (m - min m N) (min m N)).map
            (fun i : ℕ => tsMap (R + (i : ℤ) * P))).filterMap id).sum,
        ((List.range m).filter (fun i : ℕ =>
            decide (N - 1 ≤ i) &&
            decide (0 < windowCount tsMap P N (R + (i : ℤ) * P)))).map
          (fun i : ℕ => R + (i : ℤ) * P),
        ((List.range m).filter (fun i : ℕ =>
            decide (N - 1 ≤ i) &&
            decide (0 < windowCount tsMap P N (R + (i : ℤ) * P)))).map
          (fun i : ℕ => windowSum tsMap P N (R + (i : ℤ) * P) /
            (windowCount tsMap P N (R + (i : ℤ) * P) : ℚ))⟩ := by
  induction m with
  | zero => simp [maInit]
  | succ m ih =>
    rw [List.range_succ, List.map_append, List.foldl_append, ih,
      List.map_cons, List.map_nil, List.foldl_cons, List.foldl_nil]
    have htm : R + (m : ℤ) * P = S + ((m : ℤ) - ((N : ℤ) - 1)) * P := by
      rw [hR]; ring
    have hemit_iff : (S ≤ R + (m : ℤ) * P) ↔ (N - 1 ≤ m) := by
      rw [htm, le_add_mul_iff hP]; omega
    have hevict_iff : (S < R + (m : ℤ) * P) ↔ (N ≤ m) := by
      rw [htm, lt_add_mul_iff hP]; omega
    have hfilter_succ :
        (List.range m ++ [m]).filter (fun i : ℕ =>
            decide (N - 1 ≤ i) &&
            decide (0 < windowCount tsMap P N (R + (i : ℤ) * P))) =
          (List.range m).filter (fun i : ℕ =>
            decide (N - 1 ≤ i) &&
            decide (0 < windowCount tsMap P N (R + (i : ℤ) * P))) ++
          (if N - 1 ≤ m ∧ 0 < windowCount tsMap P N (R + (m : ℤ) * P)
            then [m] else []) := by
      rw [List.filter_append]
      congr 1
      have hpm : ((decide (N - 1 ≤ m) &&
            decide (0 < windowCount tsMap P N (R + (m : ℤ) * P))) = true) ↔
          (N - 1 ≤ m ∧ 0 < windowCount tsMap P N (R + (m : ℤ) * P)) := by
        simp
      rw [List.filter_cons, List.filter_nil]
      by_cases hp : N - 1 ≤ m ∧ 0 < windowCount tsMap P N (R + (m : ℤ) * P)
      · rw [if_pos (hpm.mpr hp), if_pos hp]
      · rw [if_neg (fun hc => hp (hpm.mp hc)), if_neg hp]
    by_cases hm : N ≤ m
    · -- the eviction phase: the window is full with `N` slots
      have e1 : m - min m N = m - N := by omega
      have e2 : min m N = N := by omega
      have e3 : m + 1 - min (m + 1) N = m + 1 - N := by omega
      have e4 : min (m + 1) N = N := by omega
      rw [e1, e2, e3, e4]
      have hWcons : (List.range' (m - N) N).map
            (fun i : ℕ => tsMap (R + (i : ℤ) * P)) =
          tsMap (R + ((m - N : ℕ) : ℤ) * P) ::
            (List.range' (m - N + 1) (N - 1)).map
              (fun i : ℕ => tsMap (R + (i : ℤ) * P)) := by
        rw [show (List.range' (m - N) N : List ℕ) =
            List.range' (m - N) (N - 1 + 1) from by
          rw [show N - 1 + 1 = N from by omega]]
        rw [List.range'_succ, List.map_cons]
      have hWnew : (List.range' (m + 1 - N) N).map
            (fun i : ℕ => tsMap (R + (i : ℤ) * P)) =
          (List.range' (m - N + 1) (N - 1)).map
              (fun i : ℕ => tsMap (R + (i : ℤ) * P)) ++
            [tsMap (R + (m : ℤ) * P)] := by
        rw [show m + 1 - N = m - N + 1 from by omega]
        rw [show (List.range' (m - N + 1) N : List ℕ) =
            List.range' (m - N + 1) (N - 1 + 1) from by
          rw [show N - 1 + 1 = N from by omega]]
        rw [List.range'_concat, List.map_append, List.map_cons, List.map_nil,
          show m - N + 1 + 1 * (N - 1) = m from by omega]
      have hwc : windowCount tsMap P N (R + (m : ℤ) * P) =
          (((List.range' (m + 1 - N) N).map
            (fun i : ℕ => tsMap (R + (i : ℤ) * P))).filterMap id).length :=
        windowCount_eq_slice tsMap R P N m (by omega)
      have hws : windowSum tsMap P N (R + (m : ℤ) * P) =
          (((List.range' (m + 1 - N) N).map
            (fun i : ℕ => tsMap (R + (i : ℤ) * P))).filterMap id).sum := by
        rw [windowSum_eq_slice tsMap R P N m (by omega)]
      rw [hfilter_succ]
      unfold maStep
      rw [hWcons]
      dsimp only [List.cons_append]
      rw [if_pos (hevict_iff.mpr hm), if_pos (hemit_iff.mpr (by omega))]
      rcases hval : tsMap (R + (m : ℤ) * P) with _ | v
      · rcases hhead : tsMap (R + ((m - N : ℕ) : ℤ) * P) with _ | w
        · rw [hval] at hWnew
          rw [hWnew] at hwc hws
          rw [hWnew]
          dsimp only
          simp only [List.filterMap_append, List.filterMap_cons, List.filterMap_nil,
            id_eq, List.length_append, List.length_cons, List.length_nil,
            List.sum_append, List.sum_cons, List.sum_nil, Nat.add_zero,
            List.append_nil] at hwc hws ⊢
          by_cases hpos : 0 < windowCount tsMap P N (R + (m : ℤ) * P)
          · rw [if_pos (And.intro (show N - 1 ≤ m by omega) hpos)]
            split_ifs with hc
            · rw [MAState.mk.injEq]
              refine ⟨rfl, by omega, by ring, ?_, ?_⟩
              · simp only [List.map_append, List.map_cons, List.map_nil]
              · simp only [List.map_append, List.map_cons, List.map_nil]
                rw [List.append_right_inj]
                simp only [List.cons.injEq, and_true]
                rw [hws, hwc]
                push_cast
                ring
            · exfalso; omega
          · rw [if_neg (show ¬(N - 1 ≤ m ∧
              0 < windowCount tsMap P N (R + (m : ℤ) * P)) from
                fun hcon => hpos hcon.2)]
            split_ifs with hc
            · exfalso; omega
            · rw [List.append_nil, MAState.mk.injEq]
              exact ⟨rfl, by omega, by ring, rfl, rfl⟩
        · rw [hval] at hWnew
          rw [hWnew] at hwc hws
          rw [hWnew]
          dsimp only
          simp only [List.filterMap_append, List.filterMap_cons, List.filterMap_nil,
            id_eq, List.length_append, List.length_cons, List.length_nil,
            List.sum_append, List.sum_cons, List.sum_nil, Nat.add_zero,
            List.append_nil] at hwc hws ⊢
          by_cases hpos : 0 < windowCount tsMap P N (R + (m : ℤ) * P)
          · rw [if_pos (And.intro (show N - 1 ≤ m by omega) hpos)]
            split_ifs with hc
            · rw [MAState.mk.injEq]
              refine ⟨rfl, by omega, by ring, ?_, ?_⟩
              · simp only [List.map_append, List.map_cons, List.map_nil]
              · simp only [List.map_append, List.map_cons, List.map_nil]
                rw [List.append_right_inj]
                simp only [List.cons.injEq, and_true]
                rw [hws, hwc]
                push_cast
                ring
            · exfalso; omega
          · rw [if_neg (show ¬(N - 1 ≤ m ∧
              0 < windowCount tsMap P N (R + (m : ℤ) * P)) from
                fun hcon => hpos hcon.2)]
            split_ifs with hc
            · exfalso; omega
            · rw [List.append_nil, MAState.mk.injEq]
              exact ⟨rfl, by omega, by ring, rfl, rfl⟩
      · rcases hhead : tsMap (R + ((m - N : ℕ) : ℤ) * P) with _ | w
        · rw [hval] at hWnew
          rw [hWnew] at hwc hws
          rw [hWnew]
          dsimp only
          simp only [List.filterMap_append, List.filterMap_cons, List.filterMap_nil,
            id_eq, List.length_append, List.length_cons, List.length_nil,
            List.sum_append, List.sum_cons, List.sum_nil, Nat.add_zero,
            List.append_nil] at hwc hws ⊢
          by_cases hpos : 0 < windowCount tsMap P N (R + (m : ℤ) * P)
          · rw [if_pos (And.intro (show N - 1 ≤ m by omega) hpos)]
            split_ifs with hc
            · rw [MAState.mk.injEq]
              refine ⟨rfl, by omega, by ring, ?_, ?_⟩
              · simp only [List.map_append, List.map_cons, List.map_nil]
              · simp only [List.map_append, List.map_cons, List.map_nil]
                rw [List.append_right_inj]
                simp only [List.cons.injEq, and_true]
                rw [hws, hwc]
                push_cast
                ring
            · exfalso; omega
          · exfalso; omega
        · rw [hval] at hWnew
          rw [hWnew] at hwc hws
          rw [hWnew]
          dsimp only
          simp only [List.filterMap_append, List.filterMap_cons, List.filterMap_nil,
            id_eq, List.length_append, List.length_cons, List.length_nil,
            List.sum_append, List.sum_cons, List.sum_nil, Nat.add_zero,
            List.append_nil] at hwc hws ⊢
          by_cases hpos : 0 < windowCount tsMap P N (R + (m : ℤ) * P)
          · rw [if_pos (And.intro (show N - 1 ≤ m by omega) hpos)]
            split_ifs with hc
            · rw [MAState.mk.injEq]
              refine ⟨rfl, by omega, by ring, ?_, ?_⟩
              · simp only [List.map_append, List.map_cons, List.map_nil]
              · simp only [List.map_append, List.map_cons, List.map_nil]
                rw [List.append_right_inj]
                simp only [List.cons.injEq, and_true]
                rw [hws, hwc]
                push_cast
                ring
            · exfalso; omega
          · exfalso; omega
    · -- the filling phase: the window still grows
      have e1 : m - min m N = 0 := by omega
      have e2 : min m N = m := by omega
      have e3 : m + 1 - min (m + 1) N = 0 := by omega
      have e4 : min (m + 1) N = m + 1 := by omega
      rw [e1, e2, e3, e4]
      have hWnew : (List.range' 0 (m + 1)).map
            (fun i : ℕ => tsMap (R + (i : ℤ) * P)) =
          (List.range' 0 m).map (fun i : ℕ => tsMap (R + (i : ℤ) * P)) ++
            [tsMap (R + (m : ℤ) * P)] := by
        rw [List.range'_concat, show 0 + 1 * m = m from by omega,
          List.map_append, List.map_cons, List.map_nil]
      rw [hfilter_succ]
      unfold maStep
      dsimp only
      rw [if_neg (show ¬ S < R + (m : ℤ) * P by rw [hevict_iff]; omega)]
      by_cases hem : N - 1 ≤ m
      · rw [if_pos (hemit_iff.mpr hem)]
        have hslice : (List.range' (m + 1 - N) N).map
              (fun i : ℕ => tsMap (R + (i : ℤ) * P)) =
            (List.range' 0 (m + 1)).map (fun i : ℕ => tsMap (R + (i : ℤ) * P)) := by
          rw [show m + 1 - N = 0 from by omega, show N = m + 1 from by omega]
        have hwc := windowCount_eq_slice tsMap R P N m (by omega)
        have hws := windowSum_eq_slice tsMap R P N m (by omega)
        rw [hslice, hWnew] at hwc hws
        rcases hval : tsMap (R + (m : ℤ) * P) with _ | v
        · rw [hval] at hWnew hwc hws
          rw [hWnew]
          dsimp only
          simp only [List.filterMap_append, List.filterMap_cons, List.filterMap_nil,
            id_eq, List.length_append, List.length_cons, List.length_nil,
            List.sum_append, List.sum_cons, List.sum_nil, Nat.add_zero,
            List.append_nil] at hwc hws ⊢
          by_cases hpos : 0 < windowCount tsMap P N (R + (m : ℤ) * P)
          · rw [if_pos (And.intro hem hpos)]
            split_ifs with hc
            · rw [MAState.mk.injEq]
              refine ⟨rfl, by omega, by ring, ?_, ?_⟩
              · simp only [List.map_append, List.map_cons, List.map_nil]
              · simp only [List.map_append, List.map_cons, List.map_nil]
                rw [List.append_right_inj]
                simp only [List.cons.injEq, and_true]
                rw [hws, hwc]
                push_cast
                ring
            · exfalso; omega
          · rw [if_neg (show ¬(N - 1 ≤ m ∧
              0 < windowCount tsMap P N (R + (m : ℤ) * P)) from
                fun hcon => hpos hcon.2)]
            split_ifs with hc
            · exfalso; omega
            · rw [List.append_nil, MAState.mk.injEq]
              exact ⟨rfl, by omega, by ring, rfl, rfl⟩
        · rw [hval] at hWnew hwc hws
          rw [hWnew]
          dsimp only
          simp only [List.filterMap_append, List.filterMap_cons, List.filterMap_nil,
            id_eq, List.length_append, List.length_cons, List.length_nil,
            List.sum_append, List.sum_cons, List.sum_nil, Nat.add_zero,
            List.append_nil] at hwc hws ⊢
          by_cases hpos : 0 < windowCount tsMap P N (R + (m : ℤ) * P)
          · rw [if_pos (And.intro hem hpos)]
            split_ifs with hc
            · rw [MAState.mk.injEq]
              refine ⟨rfl, by omega, by ring, ?_, ?_⟩
              · simp only [List.map_append, List.map_cons, List.map_nil]
              · simp only [List.map_append, List.map_cons, List.map_nil]
                rw [List.append_right_inj]
                simp only [List.cons.injEq, and_true]
                rw [hws, hwc]
                push_cast
                ring
            · exfalso; omega
          · exfalso; omega
      · rw [if_neg (fun hcon => hem (hemit_iff.mp hcon))]
        rw [if_neg (show ¬(N - 1 ≤ m ∧
            0 < windowCount tsMap P N (R + (m : ℤ) * P)) from
              fun hcon => hem hcon.1)]
        rcases hval : tsMap (R + (m : ℤ) * P) with _ | v
        · rw [hval] at hWnew
          rw [hWnew]
          dsimp only
          simp only [List.filterMap_append, List.filterMap_cons, List.filterMap_nil,
            id_eq, List.length_append, List.length_cons, List.length_nil,
            List.sum_append, List.sum_cons, List.sum_nil, Nat.add_zero,
            List.append_nil]
        · rw [hval] at hWnew
          rw [hWnew]
          dsimp only
          simp only [List.filterMap_append, List.filterMap_cons, List.filterMap_nil,
            id_eq, List.length_append, List.length_cons, List.length_nil,
            List.sum_append, List.sum_cons, List.sum_nil, Nat.add_zero,
            List.append_nil]
          rw [MAState.mk.injEq]
          exact ⟨rfl, by omega, by ring, rfl, rfl⟩

/-- **C1.** For every window length `N ≥ 2`, positive period and raw input
series, when the moving-average walk starts at the theoretical lookback start
`StartTime - (N-1)·Period`, every emitted point `(t, v)` lies on the query
grid inside `[StartTime, EndTime)`, its window has at least one present
sample, and `v = sampleSum / sampleCount` over exactly the present samples of
the trailing `N`-slot window ending at `t`; a timestamp in `[StartTime,
EndTime)` whose window holds no present sample is omitted from the output
entirely. -/
theorem movingAverage_window_correct (tss : List ℤ) (vs : List ℚ)
    (S E P : ℤ) (N : ℕ) (hP : 0 < P) (hN : 2 ≤ N) :
    (∀ t v,
      (t, v) ∈
        (metricDataToMovingAverage tss vs (S - ((N : ℤ) - 1) * P) S E P).outT.zip
          (metricDataToMovingAverage tss vs (S - ((N : ℤ) - 1) * P) S E P).outV →
      S ≤ t ∧ t < E ∧ (∃ k : ℕ, t = S + (k : ℤ) * P) ∧
      0 < windowCount (buildTimestampMap tss vs) P N t ∧
      v = windowSum (buildTimestampMap tss vs) P N t /
          (windowCount (buildTimestampMap tss vs) P N t : ℚ)) ∧
    (∀ t, S ≤ t → t < E →
      windowCount (buildTimestampMap tss vs) P N t = 0 →
      t ∉ (metricDataToMovingAverage tss vs (S - ((N : ℤ) - 1) * P) S E P).outT) := by
  have hinv := ma_fold_invariant (buildTimestampMap tss vs) S
    (S - ((N : ℤ) - 1) * P) P N hP hN rfl
    (gridSize (S - ((N : ℤ) - 1) * P) E P)
  unfold metricDataToMovingAverage gridTimes
  rw [hinv]
  dsimp only
  constructor
  · intro t v htv
    simp only [List.zip_map'] at htv
    obtain ⟨i, hiF, hpair⟩ := List.mem_map.mp htv
    obtain ⟨hirange, hicond⟩ := List.mem_filter.mp hiF
    have hin : i < gridSize (S - ((N : ℤ) - 1) * P) E P := List.mem_range.mp hirange
    rw [Bool.and_eq_true, decide_eq_true_iff, decide_eq_true_iff] at hicond
    obtain ⟨hiN, hiw⟩ := hicond
    obtain ⟨ht, hv⟩ := Prod.mk.injEq .. ▸ hpair
    have hteq : S - ((N : ℤ) - 1) * P + (i : ℤ) * P =
        S + ((i : ℤ) - ((N : ℤ) - 1)) * P := by ring
    refine ⟨?_, ?_, ?_, ht ▸ hiw, ht ▸ hv.symm⟩
    · rw [← ht, hteq, le_add_mul_iff hP]
      omega
    · rw [← ht]
      exact (lt_gridSize_iff hP i).mp hin
    · refine ⟨i - (N - 1), ?_⟩
      rw [← ht, hteq,
        show ((i - (N - 1) : ℕ) : ℤ) = (i : ℤ) - ((N : ℤ) - 1) from by omega]
  · intro t hSt htE hwc0 hmem
    obtain ⟨i, hiF, hieq⟩ := List.mem_map.mp hmem
    obtain ⟨_, hicond⟩ := List.mem_filter.mp hiF
    rw [Bool.and_eq_true, decide_eq_true_iff, decide_eq_true_iff] at hicond
    rw [hieq] at hicond
    omega

/-- Witness for C1: `N = 2`, period 60, window `[60, 180)`, samples at
`0` and `60`. -/
theorem movingAverage_window_correct_witness :
    ((0 : ℤ) < 60 ∧ 2 ≤ 2) ∧
    ((∀ t v,
      (t, v) ∈
        (metricDataToMovingAverage [0, 60] [4, 6] (60 - ((2 : ℤ) - 1) * 60)
            60 180 60).outT.zip
          (metricDataToMovingAverage [0, 60] [4, 6] (60 - ((2 : ℤ) - 1) * 60)
            60 180 60).outV →
      60 ≤ t ∧ t < 180 ∧ (∃ k : ℕ, t = 60 + (k : ℤ) * 60) ∧
      0 < windowCount (buildTimestampMap [0, 60] [4, 6]) 60 2 t ∧
      v = windowSum (buildTimestampMap [0, 60] [4, 6]) 60 2 t /
          (windowCount (buildTimestampMap [0, 60] [4, 6]) 60 2 t : ℚ)) ∧
    (∀ t, 60 ≤ t → t < 180 →
      windowCount (buildTimestampMap [0, 60] [4, 6]) 60 2 t = 0 →
      t ∉ (metricDataToMovingAverage [0, 60] [4, 6] (60 - ((2 : ℤ) - 1) * 60)
        60 180 60).outT)) :=
  ⟨⟨by norm_num, by norm_num⟩,
    movingAverage_window_correct [0, 60] [4, 6] 60 180 60 2
      (by norm_num) (by norm_num)⟩

/-! ## Emission bounds of the two lookback connectors -/

/-- One moving-average step either leaves the output untouched or appends the
current time, and it appends only when `StartTime ≤ time`. -/
theorem maStep_outT (tsMap : ℤ → Option ℚ) (S : ℤ) (st : MAState) (time : ℤ) :
    (maStep tsMap S st time).outT = st.outT ∨
    (S ≤ time ∧ (maStep tsMap S st time).outT = st.outT ++ [time]) := by
  unfold maStep
  dsimp only
  by_cases hle : S ≤ time
  · rw [if_pos hle]
    by_cases hlt : S < time
    · rw [if_pos hlt]
      rcases hw : st.window ++ [tsMap time] with _ | ⟨x, rest⟩
      · split_ifs <;> simp [hle]
      · rcases x with _ | w <;> split_ifs <;> simp [hle]
    · rw [if_neg hlt]
      split_ifs <;> simp [hle]
  · rw [if_neg hle]
    by_cases hlt : S < time
    · rw [if_pos hlt]
      rcases hw : st.window ++ [tsMap time] with _ | ⟨x, rest⟩
      · simp
      · rcases x with _ | w <;> simp
    · rw [if_neg hlt]
      simp

theorem ma_foldl_outT_subset (tsMap : ℤ → Option ℚ) (S : ℤ) (ts : List ℤ)
    (st0 : MAState) (t : ℤ)
    (h : t ∈ (ts.foldl (maStep tsMap S) st0).outT) :
    t ∈ st0.outT ∨ (t ∈ ts ∧ S ≤ t) := by
  induction ts generalizing st0 with
  | nil => exact Or.inl h
  | cons a tl ih =>
    rw [List.foldl_cons] at h
    rcases ih (maStep tsMap S st0 a) h with h' | h'
    · rcases maStep_outT tsMap S st0 a with he | ⟨hSa, he⟩
      · rw [he] at h'
        exact Or.inl h'
      · rw [he] at h'
        rcases List.mem_append.mp h' with h'' | h''
        · exact Or.inl h''
        · have : t = a := by simpa using h''
          exact Or.inr ⟨by simp [this], this ▸ hSa⟩
    · exact Or.inr ⟨List.mem_cons_of_mem _ h'.1, h'.2⟩

/-- **C3 (amended).** The moving-average connector emits only timestamps in
`[StartTime, EndTime)` — for any lookback walk start.  The time-shift
connector walks the grid from `roundedStart = StartTime - StartTime % Period`
and therefore emits only timestamps in `[roundedStart, EndTime)`; this equals
`[StartTime, EndTime)` exactly when `Period` divides `StartTime`, and
otherwise `roundedStart < StartTime`, so a timestamp below `StartTime` can be
emitted (see the counterexample). -/
theorem connectors_emit_within_window (maTs : List ℤ) (maVs : List ℚ)
    (revisedStartTime : ℤ) (fullTs : List ℤ) (fullVs : List ℚ)
    (S E P shiftInterval : ℤ) (numberOfShifts : ℕ) (hP : 0 < P) :
    (∀ t ∈ (metricDataToMovingAverage maTs maVs revisedStartTime S E P).outT,
      S ≤ t ∧ t < E) ∧
    (∀ s ∈ timeshiftGetMetricDataEventHandler fullTs fullVs S E P
        shiftInterval numberOfShifts,
      ∀ t ∈ s.Timestamps, S - S % P ≤ t ∧ t < E) := by
  constructor
  · intro t ht
    unfold metricDataToMovingAverage at ht
    rcases ma_foldl_outT_subset _ _ _ _ _ ht with h | ⟨hgrid, hSt⟩
    · simp [maInit] at h
    · refine ⟨hSt, ?_⟩
      obtain ⟨i, hin, rfl⟩ := mem_gridTimes_iff.mp hgrid
      exact (lt_gridSize_iff hP i).mp hin
  · intro s hs t ht
    unfold timeshiftGetMetricDataEventHandler shiftFullMetricData at hs
    obtain ⟨i, _, rfl⟩ := List.mem_map.mp hs
    dsimp only at ht
    obtain ⟨p, hp, rfl⟩ := List.mem_map.mp ht
    obtain ⟨time, htime, hft⟩ := List.mem_filterMap.mp hp
    obtain ⟨v, _, rfl⟩ := Option.map_eq_some'.mp hft
    obtain ⟨j, hjn, rfl⟩ := mem_gridTimes_iff.mp htime
    have h0 : (0 : ℤ) ≤ (j : ℤ) * P := mul_nonneg (Int.natCast_nonneg j) hP.le
    dsimp only
    exact ⟨by linarith, (lt_gridSize_iff hP j).mp hjn⟩

/-- Witness for the amended C3 at concrete inputs (`StartTime = 61` is not a
period multiple, so the time-shift bound starts at `60`). -/
theorem connectors_emit_within_window_witness :
    (0 : ℤ) < 60 ∧
    ((∀ t ∈ (metricDataToMovingAverage [0, 60] [4, 6] (-60) 61 121 60).outT,
      (61 : ℤ) ≤ t ∧ t < 121) ∧
    (∀ s ∈ timeshiftGetMetricDataEventHandler [60] [5] 61 121 60 60 1,
      ∀ t ∈ s.Timestamps, (61 : ℤ) - 61 % 60 ≤ t ∧ t < 121)) :=
  ⟨by norm_num,
    connectors_emit_within_window [0, 60] [4, 6] (-60) [60] [5] 61 121 60 60 1
      (by norm_num)⟩

/-- **C3 counterexample.** With `StartTime = 61`, `EndTime = 121`,
`Period = 60`, a one-hour shift and a raw sample at `t = 60`, the time-shift
connector emits the timestamp `60`, which is outside `[61, 121)`: the claim
that the connectors never emit timestamps outside `[StartTime, EndTime)` is
false as stated. -/
theorem timeshift_emits_before_start :
    ∃ s ∈ timeshiftGetMetricDataEventHandler [60] [5] 61 121 60 60 1,
      ∃ t ∈ s.Timestamps, ¬(61 ≤ t) := by
  decide

/-- Witness for C5: even with fuel for 100 iterations the `min = max = 1`,
`bucketCount = 1` bucket construction does not finish. -/
theorem histogram_definitions_nonterminating_witness :
    getHistogramMetricDefinitions 1 1 1 100 = none :=
  histogram_definitions_nonterminating 100

/-- Witness for C10 on the series `[1, 2, 3]` with the filter `MAX > 70`. -/
theorem thresholdFilter_stats_correct_witness :
    ((filterStatPass 1 [2, 3]).1 ∈ ([1, 2, 3] : List ℚ) ∧
      ∀ v ∈ ([1, 2, 3] : List ℚ), (filterStatPass 1 [2, 3]).1 ≤ v) ∧
    ((filterStatPass 1 [2, 3]).2.1 ∈ ([1, 2, 3] : List ℚ) ∧
      ∀ v ∈ ([1, 2, 3] : List ℚ), v ≤ (filterStatPass 1 [2, 3]).2.1) ∧
    (filterStatPass 1 [2, 3]).2.2 = ([1, 2, 3] : List ℚ).sum ∧
    (statMatchesFilter [1, 2, 3] (.pred .MAX .gt 70) = true ↔
      conditionHolds .gt (filterStatPass 1 [2, 3]).2.1 70) :=
  thresholdFilter_stats_correct 1 [2, 3] .MAX .gt 70

end CWSamples
